import Mathlib

/-!
# A verification development for the tkinter calculator (`calculator.py`)

This file shallowly embeds the calculator's state machine in Lean 4.

* `CalcState` embeds the two mutable fields of the `Calculator` class:
  `expression` (the input buffer) and the string held by `displayVar`.
* `onClick` embeds the `_onClick` dispatch method, branch by branch.
* Python `eval` applied to the buffer is embedded by `pyEval`:
  a tokenizer, a recursive-descent parser for the arithmetic expression
  grammar reachable through the calculator's buttons
  (int/float literals, unary `+`/`-`, binary `+ - * / // **`),
  and an evaluator over exact values.
* Python numbers are embedded exactly: `int` as `ℤ` and `float` as the
  exact rational `PyFloat` (numerator / positive denominator).  IEEE-754
  rounding is outside the model; on every value whose arithmetic is exact
  in double precision (all values appearing in the claims) the model
  agrees with the code.  A float power with a non-integral exponent has
  no exact rational value and is mapped to the distinct error
  `EvalErr.unmodeled`; theorems never rely on that case.
* `float(...)` string parsing is `pyFloat`, `str` of a number is
  `strVal` / `floatStr` (exact minimal decimal form, matching Python's
  shortest-roundtrip printing on decimally-exact values in the
  non-exponent range), and `_format` is `pyFormat`.

All definitions are fuel-based structural recursion, so the kernel can
evaluate them on concrete inputs.
-/

namespace CalcApp

/-- One decimal digit as a character (`0 ≤ d ≤ 9`). -/
def digChar (d : ℕ) : Char :=
  match d with
  | 0 => '0' | 1 => '1' | 2 => '2' | 3 => '3' | 4 => '4'
  | 5 => '5' | 6 => '6' | 7 => '7' | 8 => '8' | _ => '9'

/-- Numeric value of a digit character (48 = code of `'0'`). -/
def digVal (c : Char) : ℕ := c.toNat - 48

/-- Value of a digit string read left to right, as Python's number
parsing does. -/
def natVal (cs : List Char) : ℕ := cs.foldl (fun a c => 10 * a + digVal c) 0

/-- Decimal digits of `n`, most significant first (fuel-based so the
kernel can reduce it). -/
def natDigitsAux : ℕ → ℕ → List Char → List Char
  | 0, _, acc => acc
  | fuel + 1, n, acc =>
    if n < 10 then digChar n :: acc
    else natDigitsAux fuel (n / 10) (digChar (n % 10) :: acc)

/-- Decimal digit characters of a natural number, e.g. `natDigits 45 = ['4','5']`. -/
def natDigits (n : ℕ) : List Char := natDigitsAux (n + 1) n []

/-- Embeds Python `str` on an `int`. -/
def intStr (n : ℤ) : String :=
  if n < 0 then "-" ++ ⟨natDigits n.natAbs⟩ else ⟨natDigits n.toNat⟩

/-- The exact value of a Python float in the model: an integer numerator
over a positive natural denominator.  Not necessarily in lowest terms;
all operations on it are plain `Int`/`Nat` arithmetic so that the kernel
can evaluate them. -/
structure PyFloat where
  num : ℤ
  den : ℕ
  dpos : 0 < den

instance : DecidableEq PyFloat := fun a b =>
  decidable_of_iff (a.num = b.num ∧ a.den = b.den) (by
    cases a; cases b; simp)

/-- The rational value of a model float (used only in proofs). -/
def PyFloat.val (q : PyFloat) : ℚ := (q.num : ℚ) / (q.den : ℚ)

/-- The float `i.f` with `f` written with `L` digits: the value parsed
from the integer part `i`, fractional digits worth `f`, out of `10^L`. -/
def pfOfParts (i f L : ℕ) : PyFloat :=
  ⟨((i * 10 ^ L + f : ℕ) : ℤ), 10 ^ L, Nat.pos_pow_of_pos L (by norm_num)⟩

/-- Negation of a model float. -/
def pfNeg (q : PyFloat) : PyFloat := ⟨-q.num, q.den, q.dpos⟩

/-- Addition of model floats (cross multiplication). -/
def pfAdd (a b : PyFloat) : PyFloat :=
  ⟨a.num * b.den + b.num * a.den, a.den * b.den, Nat.mul_pos a.dpos b.dpos⟩

/-- Subtraction of model floats. -/
def pfSub (a b : PyFloat) : PyFloat :=
  ⟨a.num * b.den - b.num * a.den, a.den * b.den, Nat.mul_pos a.dpos b.dpos⟩

/-- Multiplication of model floats. -/
def pfMul (a b : PyFloat) : PyFloat :=
  ⟨a.num * b.num, a.den * b.den, Nat.mul_pos a.dpos b.dpos⟩

/-- Division of model floats.  The calculator's evaluator only calls it
after ruling out a zero divisor; the `b.num = 0` branch is a guard value. -/
def pfDiv (a b : PyFloat) : PyFloat :=
  if h : b.num = 0 then ⟨0, 1, one_pos⟩
  else
    ⟨(if b.num < 0 then -(a.num * (b.den : ℤ)) else a.num * (b.den : ℤ)),
     a.den * b.num.natAbs,
     Nat.mul_pos a.dpos (Int.natAbs_pos.mpr h)⟩

/-- `q ^ m` on model floats for a natural exponent. -/
def pfPowNat (a : PyFloat) (m : ℕ) : PyFloat :=
  ⟨a.num ^ m, a.den ^ m, Nat.pos_pow_of_pos m a.dpos⟩

/-- Reciprocal of a model float (guarded: only used on nonzero values). -/
def pfInv (a : PyFloat) : PyFloat :=
  if h : a.num = 0 then ⟨0, 1, one_pos⟩
  else
    ⟨(if a.num < 0 then -(a.den : ℤ) else (a.den : ℤ)),
     a.num.natAbs, Int.natAbs_pos.mpr h⟩

/-- Embeds `float(self.expression) / 100` in the percent branch
(`float / int` is exact rational division by 100 in the model). -/
def pfDiv100 (q : PyFloat) : PyFloat :=
  ⟨q.num, q.den * 100, Nat.mul_pos q.dpos (by norm_num)⟩

/-- Embeds Python `float.is_integer` (and the `int`-valuedness test):
the denominator divides the numerator. -/
def pfIsInt (q : PyFloat) : Bool := q.num % (q.den : ℤ) = 0

/-- Embeds Python `int(value)` on an integral float (exact quotient). -/
def pfToInt (q : PyFloat) : ℤ := q.num / (q.den : ℤ)

/-- Floor of a model float (`Int.fdiv` is floor division for a positive
denominator), embedding Python's float floor division result. -/
def pfFloor (q : PyFloat) : ℤ := Int.fdiv q.num (q.den : ℤ)

/-- Searches (from `k`, with the given fuel) for the least exponent `k`
with `q * 10^k` integral: the number of decimal digits Python's shortest
round-trip `repr` prints after the point. -/
def searchK : ℕ → PyFloat → ℕ → Option ℕ
  | 0, _, _ => none
  | fuel + 1, q, k =>
    if (q.num * 10 ^ k) % (q.den : ℤ) = 0 then some k
    else searchK fuel q (k + 1)

/-- Digit characters of `n` with a decimal point placed `k` digits from
the right, zero padded the way Python prints floats: `pointed 5 1 = "0.5"`,
`pointed 4 0 = "4.0"`. -/
def pointed (n k : ℕ) : List Char :=
  if k = 0 then natDigits n ++ ['.', '0']
  else
    let ds := natDigits n
    let pad := List.replicate (k + 1 - ds.length) '0' ++ ds
    pad.take (pad.length - k) ++ '.' :: pad.drop (pad.length - k)

/-- Embeds Python `str` on a float: sign, then the exact minimal decimal
expansion.  A value with no finite decimal expansion (impossible for a
real double; only model slack) falls back to a fraction rendering. -/
def floatStr (q : PyFloat) : String :=
  let sgn : String := if q.num < 0 then "-" else ""
  match searchK (q.den + 1) q 0 with
  | some k => sgn ++ ⟨pointed ((q.num * 10 ^ k).natAbs / q.den) k⟩
  | none => sgn ++ ⟨natDigits q.num.natAbs⟩ ++ "/" ++ ⟨natDigits q.den⟩

/-- A Python value flowing out of `eval` on a calculator buffer:
an `int` or a `float`. -/
inductive PyVal where
  | int (n : ℤ)
  | float (f : PyFloat)
deriving DecidableEq

/-- Embeds Python `str(result)` in the equals branch. -/
def strVal : PyVal → String
  | .int n => intStr n
  | .float f => floatStr f

/-- Embeds the method `_format`: a whole-number float is printed through
`str(int(value))`, anything else through `str(value)`. -/
def pyFormat : PyVal → String
  | .int n => intStr n
  | .float f => if pfIsInt f then intStr (pfToInt f) else floatStr f

/-- `_format` specialised to a float argument, as called in the percent
branch on `float(value)`. -/
def pyFormatFloat (f : PyFloat) : String := pyFormat (.float f)

/-- Parses an unsigned float body for `pyFloat`: digit characters with
at most one dot and at least one digit, exactly Python's accepted
`float(...)` grammar on the character set that can reach the buffer
(no exponent part, which only ever arises from magnitudes where the
model's exactness already departs from IEEE doubles). -/
def floatBlob (cs : List Char) : Option PyFloat :=
  if cs.all (fun c => c.isDigit || c = '.') ∧ cs.count '.' ≤ 1 ∧
      cs.any (fun c => c.isDigit) then
    let i := cs.takeWhile (fun c => c ≠ '.')
    match cs.dropWhile (fun c => c ≠ '.') with
    | [] => some (pfOfParts (natVal i) 0 0)
    | _ :: f => some (pfOfParts (natVal i) (natVal f) f.length)
  else none

/-- Embeds Python `float(s)` on the strings reachable in the buffer:
an optional sign followed by a digits-and-dot body. -/
def pyFloat (s : String) : Option PyFloat :=
  match s.data with
  | '+' :: r => floatBlob r
  | '-' :: r => (floatBlob r).map pfNeg
  | r => floatBlob r

/-! ## Embedding of `eval` on the buffer -/

/-- A token of the arithmetic grammar reachable through the buttons. -/
inductive Tok where
  | num (v : PyVal)
  | plus
  | minus
  | star
  | slash
  | dstar
  | dslash
deriving DecidableEq

/-- A numeric literal, with Python 3's rules: a dotless literal is an
`int` and may not have a leading zero unless it is all zeros
(`eval("007")` is a syntax error while `eval("00")` is `0`); a literal
with one dot and at least one digit is a `float` (leading zeros allowed). -/
def numLit (cs : List Char) : Option PyVal :=
  if cs.count '.' = 0 then
    if cs = [] then none
    else if cs.head? = some '0' ∧ ¬ cs.all (fun c => c = '0') then none
    else some (.int (natVal cs))
  else if cs.count '.' = 1 ∧ cs.any (fun c => c.isDigit) then
    let i := cs.takeWhile (fun c => c ≠ '.')
    match cs.dropWhile (fun c => c ≠ '.') with
    | [] => none
    | _ :: f => some (.float (pfOfParts (natVal i) (natVal f) f.length))
  else none

/-- Tokenizer for the buffer (fuel-based; each step consumes at least
one character).  Maximal runs of digits and dots form one numeric
literal, exactly as Python's lexer makes `1.2.3` a syntax error;
`**` and `//` are lexed before `*` and `/`.  Any other character is a
syntax error (none can reach the buffer through the UI). -/
def tokenizeAux : ℕ → List Char → Option (List Tok)
  | 0, _ => none
  | _ + 1, [] => some []
  | fuel + 1, c :: cs =>
    if c.isDigit ∨ c = '.' then
      let blob := c :: cs.takeWhile (fun x => x.isDigit || x = '.')
      match numLit blob with
      | none => none
      | some v =>
        (tokenizeAux fuel (cs.dropWhile (fun x => x.isDigit || x = '.'))).map
          (fun ts => Tok.num v :: ts)
    else if c = '+' then (tokenizeAux fuel cs).map (Tok.plus :: ·)
    else if c = '-' then (tokenizeAux fuel cs).map (Tok.minus :: ·)
    else if c = '*' then
      match cs with
      | '*' :: rest => (tokenizeAux fuel rest).map (Tok.dstar :: ·)
      | _ => (tokenizeAux fuel cs).map (Tok.star :: ·)
    else if c = '/' then
      match cs with
      | '/' :: rest => (tokenizeAux fuel rest).map (Tok.dslash :: ·)
      | _ => (tokenizeAux fuel cs).map (Tok.slash :: ·)
    else none

/-- Tokenizes a buffer. -/
def tokenize (cs : List Char) : Option (List Tok) :=
  tokenizeAux (cs.length + 1) cs

/-- Abstract syntax of the evaluated expression. -/
inductive Expr where
  | lit (v : PyVal)
  | pos (e : Expr)
  | neg (e : Expr)
  | add (a b : Expr)
  | sub (a b : Expr)
  | mul (a b : Expr)
  | div (a b : Expr)
  | fdiv (a b : Expr)
  | pow (a b : Expr)

/-- An atom of the grammar: a literal (no parentheses are reachable). -/
def parseAtom : List Tok → Option (Expr × List Tok)
  | .num v :: rest => some (.lit v, rest)
  | _ => none

/-- Parses a unary expression, Python precedence: unary `+`/`-` apply to
a power, and `**` binds tighter than unary minus on its left while its
right operand is itself a unary expression (`-2**2 = -(2**2)`,
`2**-1 = 2**(-1)`). -/
def parseUnary : ℕ → List Tok → Option (Expr × List Tok)
  | 0, _ => none
  | fuel + 1, .plus :: rest => (parseUnary fuel rest).map (fun (e, r) => (.pos e, r))
  | fuel + 1, .minus :: rest => (parseUnary fuel rest).map (fun (e, r) => (.neg e, r))
  | fuel + 1, toks =>
    match parseAtom toks with
    | none => none
    | some (a, rest) =>
      match rest with
      | .dstar :: rest2 =>
        (parseUnary fuel rest2).map (fun (b, r) => (.pow a b, r))
      | _ => some (a, rest)

/-- Left-associative chain of `*`, `/`, `//` over unary expressions. -/
def parseMulLoop : ℕ → Expr → List Tok → Option (Expr × List Tok)
  | 0, _, _ => none
  | fuel + 1, acc, .star :: rest =>
    match parseUnary (rest.length + 1) rest with
    | none => none
    | some (b, r) => parseMulLoop fuel (.mul acc b) r
  | fuel + 1, acc, .slash :: rest =>
    match parseUnary (rest.length + 1) rest with
    | none => none
    | some (b, r) => parseMulLoop fuel (.div acc b) r
  | fuel + 1, acc, .dslash :: rest =>
    match parseUnary (rest.length + 1) rest with
    | none => none
    | some (b, r) => parseMulLoop fuel (.fdiv acc b) r
  | _ + 1, acc, toks => some (acc, toks)

/-- Parses a multiplicative expression. -/
def parseMul (toks : List Tok) : Option (Expr × List Tok) :=
  match parseUnary (toks.length + 1) toks with
  | none => none
  | some (a, rest) => parseMulLoop (rest.length + 1) a rest

/-- Left-associative chain of `+`, `-` over multiplicative expressions. -/
def parseAddLoop : ℕ → Expr → List Tok → Option (Expr × List Tok)
  | 0, _, _ => none
  | fuel + 1, acc, .plus :: rest =>
    match parseMul rest with
    | none => none
    | some (b, r) => parseAddLoop fuel (.add acc b) r
  | fuel + 1, acc, .minus :: rest =>
    match parseMul rest with
    | none => none
    | some (b, r) => parseAddLoop fuel (.sub acc b) r
  | _ + 1, acc, toks => some (acc, toks)

/-- Parses an additive expression (the whole grammar). -/
def parseExpr (toks : List Tok) : Option (Expr × List Tok) :=
  match parseMul toks with
  | none => none
  | some (a, rest) => parseAddLoop (rest.length + 1) a rest

/-- The two exceptions `_onClick` distinguishes, plus the marker for a
float power with a fractional exponent, whose exact value the rational
model cannot represent (the code computes an IEEE approximation there). -/
inductive EvalErr where
  | zeroDiv
  | badExpr
  | unmodeled
deriving DecidableEq

instance : DecidableEq (Except EvalErr PyVal) := fun a b =>
  match a, b with
  | .ok x, .ok y => decidable_of_iff (x = y) (by simp)
  | .ok _, .error _ => .isFalse (by simp)
  | .error _, .ok _ => .isFalse (by simp)
  | .error x, .error y => decidable_of_iff (x = y) (by simp)

/-- Coercion of a value to a float, as Python's mixed arithmetic does. -/
def PyVal.toF : PyVal → PyFloat
  | .int n => ⟨n, 1, one_pos⟩
  | .float f => f

/-- Is the value (int or float) equal to zero? -/
def PyVal.isZero : PyVal → Bool
  | .int n => n = 0
  | .float f => f.num = 0

/-- Is the value an int, or an integral float? (Used to classify `**`.) -/
def PyVal.isIntegral : PyVal → Bool
  | .int _ => true
  | .float f => pfIsInt f

/-- Python addition: `int + int` stays `int`, otherwise float. -/
def PyVal.addv : PyVal → PyVal → PyVal
  | .int a, .int b => .int (a + b)
  | a, b => .float (pfAdd a.toF b.toF)

/-- Python subtraction. -/
def PyVal.subv : PyVal → PyVal → PyVal
  | .int a, .int b => .int (a - b)
  | a, b => .float (pfSub a.toF b.toF)

/-- Python multiplication. -/
def PyVal.mulv : PyVal → PyVal → PyVal
  | .int a, .int b => .int (a * b)
  | a, b => .float (pfMul a.toF b.toF)

/-- Python true division: always a float, `ZeroDivisionError` on a zero
divisor. -/
def PyVal.divv (a b : PyVal) : Except EvalErr PyVal :=
  if b.isZero then .error .zeroDiv
  else .ok (.float (pfDiv a.toF b.toF))

/-- Python floor division: `int // int` is an `int` (floor), any float
operand gives a floored float; `ZeroDivisionError` on a zero divisor. -/
def PyVal.fdivv (a b : PyVal) : Except EvalErr PyVal :=
  match a, b with
  | .int x, .int y =>
    if y = 0 then .error .zeroDiv else .ok (.int (Int.fdiv x y))
  | _, _ =>
    if b.isZero then .error .zeroDiv
    else .ok (.float ⟨pfFloor (pfDiv a.toF b.toF), 1, one_pos⟩)

/-- Python power.  `int ** nonneg-int` is an `int`; a negative integer
exponent gives a float (`ZeroDivisionError` on base 0); with a float
operand and an integral exponent the result is a float; a fractional
exponent leaves the exact model (`EvalErr.unmodeled`). -/
def PyVal.powv (a b : PyVal) : Except EvalErr PyVal :=
  match a, b with
  | .int x, .int y =>
    if 0 ≤ y then .ok (.int (x ^ y.toNat))
    else if x = 0 then .error .zeroDiv
    else .ok (.float (pfInv (pfPowNat ⟨x, 1, one_pos⟩ (-y).toNat)))
  | _, _ =>
    if b.isIntegral then
      let m := pfToInt b.toF
      if 0 ≤ m then .ok (.float (pfPowNat a.toF m.toNat))
      else if a.isZero then .error .zeroDiv
      else .ok (.float (pfInv (pfPowNat a.toF (-m).toNat)))
    else .error .unmodeled

/-- Python negation. -/
def PyVal.negv : PyVal → PyVal
  | .int n => .int (-n)
  | .float f => .float (pfNeg f)

/-- Evaluates the syntax tree with Python's arithmetic. -/
def evalE : Expr → Except EvalErr PyVal
  | .lit v => .ok v
  | .pos e => evalE e
  | .neg e => (evalE e).map PyVal.negv
  | .add a b => do pure (PyVal.addv (← evalE a) (← evalE b))
  | .sub a b => do pure (PyVal.subv (← evalE a) (← evalE b))
  | .mul a b => do pure (PyVal.mulv (← evalE a) (← evalE b))
  | .div a b => do PyVal.divv (← evalE a) (← evalE b)
  | .fdiv a b => do PyVal.fdivv (← evalE a) (← evalE b)
  | .pow a b => do PyVal.powv (← evalE a) (← evalE b)

/-- Embeds `eval(self.expression)`: lex, parse the full string, evaluate.
Any lex or parse failure is Python's `SyntaxError`, caught by `_onClick`
as a generic `Exception`. -/
def pyEval (s : String) : Except EvalErr PyVal :=
  match tokenize s.data with
  | none => .error .badExpr
  | some toks =>
    match parseExpr toks with
    | none => .error .badExpr
    | some (e, []) => evalE e
    | some (_, _ :: _) => .error .badExpr

/-! ## Embedding of the `Calculator` state and `_onClick` -/

/-- The two mutable fields of the `Calculator` class: `expression` and
the string held by `displayVar`. -/
structure CalcState where
  expression : String
  display : String
deriving DecidableEq

/-- The state right after `__init__`: empty buffer, display `"0"`. -/
def initState : CalcState := ⟨"", "0"⟩

/-- Embeds `self.expression[:-1]` (drop the last character). -/
def strDropLast (s : String) : String := ⟨s.data.dropLast⟩

/-- Embeds `self.expression.startswith("-")`. -/
def strIsNeg (s : String) : Bool := s.data.head? = some '-'

/-- Embeds `self.expression[1:]` (drop the first character). -/
def strTail (s : String) : String := ⟨s.data.drop 1⟩

/-- Embeds `opMap.get(label, label)`:
`{"÷": "/", "×": "*", "−": "-"}` with the label itself as default. -/
def opChar (label : String) : String :=
  if label = "÷" then "/"
  else if label = "×" then "*"
  else if label = "−" then "-"
  else label

/-- Embeds `_onClick(label)`, branch by branch in the source's order. -/
def onClick (label : String) (s : CalcState) : CalcState :=
  if label = "C" then
    ⟨"", "0"⟩
  else if label = "⌫" then
    let e := strDropLast s.expression
    ⟨e, if e = "" then "0" else e⟩
  else if label = "±" then
    if s.expression ≠ "" ∧ s.expression ≠ "0" then
      let e := if strIsNeg s.expression then strTail s.expression
               else "-" ++ s.expression
      ⟨e, e⟩
    else s
  else if label = "%" then
    match pyFloat s.expression with
    | none => ⟨"", "Error"⟩
    | some v =>
      let value := floatStr (pfDiv100 v)
      match pyFloat value with
      | none => ⟨"", "Error"⟩
      | some v2 => ⟨value, pyFormatFloat v2⟩
  else if label = "=" then
    match pyEval s.expression with
    | .ok result => ⟨strVal result, pyFormat result⟩
    | .error .zeroDiv => ⟨"", "÷0 Error"⟩
    | .error _ => ⟨"", "Error"⟩
  else
    ⟨s.expression ++ opChar label, s.expression ++ opChar label⟩

/-- Runs a sequence of button presses from a state. -/
def applyAll (seq : List String) (s : CalcState) : CalcState :=
  seq.foldl (fun t l => onClick l t) s

/-- The ten digit button labels. -/
def digitLabels : List String :=
  ["0", "1", "2", "3", "4", "5", "6", "7", "8", "9"]

/-! ## Lemmas on digit printing and parsing -/

theorem digVal_digChar {d : ℕ} (h : d < 10) : digVal (digChar d) = d := by
  interval_cases d <;> rfl

theorem digChar_isDigit {d : ℕ} (h : d < 10) : (digChar d).isDigit = true := by
  interval_cases d <;> rfl

theorem digChar_ne_dot {d : ℕ} (h : d < 10) : digChar d ≠ '.' := by
  interval_cases d <;> decide

theorem digChar_ne_plus {d : ℕ} (h : d < 10) : digChar d ≠ '+' := by
  interval_cases d <;> decide

theorem digChar_ne_minus {d : ℕ} (h : d < 10) : digChar d ≠ '-' := by
  interval_cases d <;> decide

theorem natVal_foldl_from (ys : List Char) :
    ∀ a : ℕ, ys.foldl (fun a c => 10 * a + digVal c) a =
      a * 10 ^ ys.length + natVal ys := by
  induction ys with
  | nil => intro a; simp [natVal]
  | cons c ys ih =>
    intro a
    have hval : natVal (c :: ys) = digVal c * 10 ^ ys.length + natVal ys := by
      show List.foldl _ (10 * 0 + digVal c) ys = _
      rw [show 10 * 0 + digVal c = digVal c by ring, ih (digVal c)]
    simp only [List.foldl_cons, List.length_cons, hval, ih (10 * a + digVal c)]
    ring

theorem natVal_append (xs ys : List Char) :
    natVal (xs ++ ys) = natVal xs * 10 ^ ys.length + natVal ys := by
  show List.foldl _ 0 (xs ++ ys) = _
  rw [List.foldl_append]
  exact natVal_foldl_from ys (natVal xs)

theorem natDigitsAux_acc (fuel : ℕ) :
    ∀ (n : ℕ) (acc : List Char),
      natDigitsAux fuel n acc = natDigitsAux fuel n [] ++ acc := by
  induction fuel with
  | zero => intro n acc; rfl
  | succ f ih =>
    intro n acc
    by_cases h : n < 10
    · simp [natDigitsAux, h]
    · simp only [natDigitsAux, if_neg h]
      rw [ih (n / 10) (digChar (n % 10) :: acc),
        ih (n / 10) [digChar (n % 10)], List.append_assoc]
      rfl

theorem natVal_natDigitsAux :
    ∀ (fuel n : ℕ), n < 10 ^ fuel → 0 < fuel →
      natVal (natDigitsAux fuel n []) = n := by
  intro fuel
  induction fuel with
  | zero => intro n _ h0; omega
  | succ f ih =>
    intro n hn _
    by_cases h : n < 10
    · have : natDigitsAux (f + 1) n [] = [digChar n] := by
        simp [natDigitsAux, h]
      rw [this]
      show 10 * 0 + digVal (digChar n) = n
      rw [digVal_digChar h]; ring
    · have hf : 0 < f := by
        rcases Nat.eq_zero_or_pos f with h0 | h0
        · subst h0; simp at hn; omega
        · exact h0
      have hstep : natDigitsAux (f + 1) n [] =
          natDigitsAux f (n / 10) [] ++ [digChar (n % 10)] := by
        simp only [natDigitsAux, if_neg h]
        exact natDigitsAux_acc f (n / 10) [digChar (n % 10)]
      have hdiv : n / 10 < 10 ^ f := by
        rw [Nat.div_lt_iff_lt_mul (by norm_num)]
        calc n < 10 ^ (f + 1) := hn
        _ = 10 ^ f * 10 := by ring
      rw [hstep, natVal_append, ih (n / 10) hdiv hf]
      have : natVal [digChar (n % 10)] = n % 10 := by
        show 10 * 0 + digVal (digChar (n % 10)) = n % 10
        rw [digVal_digChar (Nat.mod_lt n (by norm_num))]; ring
      rw [this]
      simp only [List.length_singleton, pow_one]
      omega

theorem natVal_natDigits (n : ℕ) : natVal (natDigits n) = n := by
  refine natVal_natDigitsAux (n + 1) n ?_ (Nat.succ_pos n)
  calc n < 10 ^ n := Nat.lt_pow_self (by norm_num) n
  _ ≤ 10 ^ (n + 1) := Nat.pow_le_pow_right (by norm_num) (Nat.le_succ n)

theorem natDigitsAux_ne_nil :
    ∀ (fuel n : ℕ) (acc : List Char), 0 < fuel →
      natDigitsAux fuel n acc ≠ [] := by
  intro fuel
  induction fuel with
  | zero => intro n acc h; omega
  | succ f _ =>
    intro n acc _
    by_cases h : n < 10
    · simp [natDigitsAux, h]
    · simp only [natDigitsAux, if_neg h]
      rw [natDigitsAux_acc]
      simp

theorem natDigits_ne_nil (n : ℕ) : natDigits n ≠ [] :=
  natDigitsAux_ne_nil (n + 1) n [] (Nat.succ_pos n)

theorem natDigitsAux_mem :
    ∀ (fuel n : ℕ) (acc : List Char) (c : Char),
      c ∈ natDigitsAux fuel n acc →
      c ∈ acc ∨ ∃ d, d < 10 ∧ c = digChar d := by
  intro fuel
  induction fuel with
  | zero => intro n acc c hc; exact Or.inl hc
  | succ f ih =>
    intro n acc c hc
    by_cases h : n < 10
    · simp only [natDigitsAux, if_pos h, List.mem_cons] at hc
      rcases hc with rfl | hc
      · exact Or.inr ⟨n, h, rfl⟩
      · exact Or.inl hc
    · simp only [natDigitsAux, if_neg h] at hc
      rcases ih (n / 10) (digChar (n % 10) :: acc) c hc with hacc | hd
      · rcases List.mem_cons.mp hacc with rfl | hacc2
        · exact Or.inr ⟨n % 10, Nat.mod_lt n (by norm_num), rfl⟩
        · exact Or.inl hacc2
      · exact Or.inr hd

theorem natDigits_mem {n : ℕ} {c : Char} (hc : c ∈ natDigits n) :
    ∃ d, d < 10 ∧ c = digChar d := by
  rcases natDigitsAux_mem (n + 1) n [] c hc with h | h
  · simp at h
  · exact h

theorem natDigits_isDigit {n : ℕ} {c : Char} (hc : c ∈ natDigits n) :
    c.isDigit = true := by
  obtain ⟨d, hd, rfl⟩ := natDigits_mem hc
  exact digChar_isDigit hd

theorem natDigits_ne_dot {n : ℕ} {c : Char} (hc : c ∈ natDigits n) :
    c ≠ '.' := by
  obtain ⟨d, hd, rfl⟩ := natDigits_mem hc
  exact digChar_ne_dot hd

theorem natVal_replicate_zero (m : ℕ) :
    natVal (List.replicate m '0') = 0 := by
  induction m with
  | zero => rfl
  | succ k ih =>
    show List.foldl _ 0 (List.replicate (k + 1) '0') = 0
    rw [List.replicate_succ, List.foldl_cons]
    exact ih

/-! ## Non-emptiness of the printed strings -/

theorem mk_ne_empty {l : List Char} (h : l ≠ []) : (⟨l⟩ : String) ≠ "" :=
  fun hc => h (congrArg String.data hc)

theorem append_data (a b : String) : (a ++ b).data = a.data ++ b.data :=
  String.data_append a b

theorem ne_empty_of_data_ne_nil {s : String} (h : s.data ≠ []) : s ≠ "" :=
  fun hc => h (by rw [hc])

theorem intStr_ne_empty (n : ℤ) : intStr n ≠ "" := by
  unfold intStr
  by_cases h : n < 0
  · rw [if_pos h]
    refine ne_empty_of_data_ne_nil ?_
    rw [append_data]
    simp
  · rw [if_neg h]
    exact mk_ne_empty (natDigits_ne_nil n.toNat)

theorem pointed_ne_nil (n k : ℕ) : pointed n k ≠ [] := by
  unfold pointed
  by_cases h : k = 0
  · rw [if_pos h]
    simp [natDigits_ne_nil n]
  · rw [if_neg h]
    simp

theorem floatStr_ne_empty (q : PyFloat) : floatStr q ≠ "" := by
  rcases hs : searchK (q.den + 1) q 0 with _ | k
  · have heq : floatStr q = (if q.num < 0 then "-" else "") ++
        ⟨natDigits q.num.natAbs⟩ ++ "/" ++ ⟨natDigits q.den⟩ := by
      unfold floatStr
      rw [hs]
    rw [heq]
    refine ne_empty_of_data_ne_nil ?_
    simp [append_data, natDigits_ne_nil]
  · have heq : floatStr q = (if q.num < 0 then "-" else "") ++
        ⟨pointed ((q.num * 10 ^ k).natAbs / q.den) k⟩ := by
      unfold floatStr
      rw [hs]
    rw [heq]
    refine ne_empty_of_data_ne_nil ?_
    simp [append_data, pointed_ne_nil]

theorem pyFormat_ne_empty (v : PyVal) : pyFormat v ≠ "" := by
  cases v with
  | int n => exact intStr_ne_empty n
  | float f =>
    show (if pfIsInt f = true then intStr (pfToInt f) else floatStr f) ≠ ""
    by_cases h : pfIsInt f
    · simp only [h, ite_true]; exact intStr_ne_empty _
    · simp only [h, Bool.false_eq_true, ite_false]
      exact floatStr_ne_empty f

theorem strVal_ne_empty (v : PyVal) : strVal v ≠ "" := by
  cases v with
  | int n => exact intStr_ne_empty n
  | float f => exact floatStr_ne_empty f

/-! ## Branch lemmas for `onClick` -/

theorem onClick_equals (s : CalcState) :
    onClick "=" s =
      (match pyEval s.expression with
        | .ok result => ⟨strVal result, pyFormat result⟩
        | .error .zeroDiv => ⟨"", "÷0 Error"⟩
        | .error _ => ⟨"", "Error"⟩) := rfl

theorem onClick_percent (s : CalcState) :
    onClick "%" s =
      (match pyFloat s.expression with
        | none => ⟨"", "Error"⟩
        | some v =>
          let value := floatStr (pfDiv100 v)
          match pyFloat value with
          | none => ⟨"", "Error"⟩
          | some v2 => ⟨value, pyFormatFloat v2⟩) := rfl

theorem onClick_backspace (s : CalcState) :
    onClick "⌫" s =
      ⟨strDropLast s.expression,
       if strDropLast s.expression = "" then "0"
       else strDropLast s.expression⟩ := rfl

theorem onClick_sign (s : CalcState) :
    onClick "±" s =
      (if s.expression ≠ "" ∧ s.expression ≠ "0" then
        let e := if strIsNeg s.expression then strTail s.expression
                 else "-" ++ s.expression
        (⟨e, e⟩ : CalcState)
      else s) := rfl

/-! ## String-level helper lemmas -/

theorem str_ext {a b : String} (h : a.data = b.data) : a = b := by
  cases a; cases b; exact congrArg String.mk h

theorem str_append_empty (s : String) : s ++ "" = s :=
  str_ext (by simp [append_data])

theorem str_empty_append (s : String) : "" ++ s = s :=
  str_ext (by simp [append_data])

theorem str_append_assoc (a b c : String) : a ++ b ++ c = a ++ (b ++ c) :=
  str_ext (by simp [append_data])

theorem strDropLast_push (x : String) (c : Char) :
    strDropLast (x.push c) = x := by
  simp [strDropLast, String.push]

theorem strDropLast_empty : strDropLast "" = "" := rfl

theorem strIsNeg_minus_append (x : String) : strIsNeg ("-" ++ x) = true := by
  simp [strIsNeg, append_data]

theorem strTail_minus_append (x : String) : strTail ("-" ++ x) = x := by
  simp [strTail, append_data]

theorem minus_append_ne_empty (x : String) : "-" ++ x ≠ "" := by
  intro hc
  have := congrArg String.data hc
  simp [append_data] at this

theorem minus_append_ne_zero (x : String) : "-" ++ x ≠ "0" := by
  intro hc
  have h2 := congrArg String.data hc
  rw [append_data] at h2
  simp at h2

theorem minus_append_strTail {x : String} (h : strIsNeg x = true) :
    "-" ++ strTail x = x := by
  cases x with
  | mk data =>
    cases data with
    | nil => simp [strIsNeg] at h
    | cons c cs =>
      simp [strIsNeg] at h
      subst h
      refine str_ext ?_
      simp [strTail, append_data]

theorem join_foldl_from :
    ∀ (xs : List String) (a : String),
      xs.foldl (· ++ ·) a = a ++ String.join xs := by
  intro xs
  induction xs with
  | nil => intro a; simp [String.join, str_append_empty]
  | cons x xs ih =>
    intro a
    have hj : String.join (x :: xs) = x ++ String.join xs := by
      show List.foldl (· ++ ·) ("" ++ x) xs = _
      rw [ih ("" ++ x), str_empty_append]
    simp only [List.foldl_cons, hj, ih (a ++ x), str_append_assoc]

theorem join_cons (x : String) (xs : List String) :
    String.join (x :: xs) = x ++ String.join xs := by
  show List.foldl (· ++ ·) ("" ++ x) xs = _
  rw [join_foldl_from xs ("" ++ x), str_empty_append]

/-! ## The default (append) branch and digit sequences -/

theorem onClick_default {label : String} (h1 : label ≠ "C")
    (h2 : label ≠ "⌫") (h3 : label ≠ "±") (h4 : label ≠ "%")
    (h5 : label ≠ "=") (s : CalcState) :
    onClick label s =
      ⟨s.expression ++ opChar label, s.expression ++ opChar label⟩ := by
  unfold onClick
  rw [if_neg h1, if_neg h2, if_neg h3, if_neg h4, if_neg h5]

theorem onClick_digit_append {l : String} (hl : l ∈ digitLabels)
    (s : CalcState) :
    onClick l s = ⟨s.expression ++ l, s.expression ++ l⟩ := by
  simp only [digitLabels, List.mem_cons, List.mem_singleton] at hl
  rcases hl with rfl | rfl | rfl | rfl | rfl | rfl | rfl | rfl | rfl | rfl |
    h <;> first | rfl | simp at h

theorem applyAll_digits :
    ∀ (seq : List String) (s : CalcState),
      (∀ l ∈ seq, l ∈ digitLabels) →
      (applyAll seq s).expression = s.expression ++ String.join seq ∧
      (seq = [] ∨
        (applyAll seq s).display = (applyAll seq s).expression) := by
  intro seq
  induction seq with
  | nil =>
    intro s _
    refine ⟨?_, Or.inl rfl⟩
    show s.expression = s.expression ++ String.join []
    rw [show String.join [] = "" from rfl, str_append_empty]
  | cons l seq ih =>
    intro s hmem
    have hl : l ∈ digitLabels := hmem l (List.mem_cons_self l seq)
    have hstep : applyAll (l :: seq) s =
        applyAll seq ⟨s.expression ++ l, s.expression ++ l⟩ := by
      show applyAll seq (onClick l s) = _
      rw [onClick_digit_append hl]
    obtain ⟨hexp, hdisp⟩ :=
      ih ⟨s.expression ++ l, s.expression ++ l⟩
        (fun x hx => hmem x (List.mem_cons_of_mem l hx))
    constructor
    · rw [hstep, hexp, join_cons, str_append_assoc]
    · right
      rcases hdisp with hnil | hd
      · subst hnil
        rw [hstep]
        rfl
      · rw [hstep]
        exact hd

/-! ## The display-versus-buffer invariant -/

/-- The invariant the code actually maintains: the display string can be
empty only while the buffer is empty too. -/
def dispInv (s : CalcState) : Prop :=
  s.display ≠ "" ∨ s.expression = ""

theorem dispInv_onClick (label : String) (s : CalcState)
    (h : dispInv s) : dispInv (onClick label s) := by
  by_cases h1 : label = "C"
  · subst h1
    exact Or.inl (show ("0" : String) ≠ "" by decide)
  by_cases h2 : label = "⌫"
  · subst h2
    rw [onClick_backspace]
    rcases eq_or_ne (strDropLast s.expression) "" with he | he
    · refine Or.inl ?_
      show (if strDropLast s.expression = "" then "0"
        else strDropLast s.expression) ≠ ""
      rw [if_pos he]; decide
    · refine Or.inl ?_
      show (if strDropLast s.expression = "" then "0"
        else strDropLast s.expression) ≠ ""
      rw [if_neg he]; exact he
  by_cases h3 : label = "±"
  · subst h3
    rw [onClick_sign]
    split_ifs with hc hn
    · rcases eq_or_ne (strTail s.expression) "" with he | he
      · exact Or.inr he
      · exact Or.inl he
    · rcases eq_or_ne ("-" ++ s.expression) "" with he | he
      · exact Or.inr he
      · exact Or.inl he
    · exact h
  by_cases h4 : label = "%"
  · subst h4
    rw [onClick_percent]
    rcases hv : pyFloat s.expression with _ | v
    · exact Or.inl (show ("Error" : String) ≠ "" by decide)
    · show dispInv
        (match pyFloat (floatStr (pfDiv100 v)) with
          | none => (⟨"", "Error"⟩ : CalcState)
          | some v2 => ⟨floatStr (pfDiv100 v), pyFormatFloat v2⟩)
      rcases hv2 : pyFloat (floatStr (pfDiv100 v)) with _ | v2
      · exact Or.inl (show ("Error" : String) ≠ "" by decide)
      · exact Or.inl (pyFormat_ne_empty (.float v2))
  by_cases h5 : label = "="
  · subst h5
    rw [onClick_equals]
    rcases hv : pyEval s.expression with e | v
    · rcases e
      · exact Or.inl (show ("÷0 Error" : String) ≠ "" by decide)
      · exact Or.inl (show ("Error" : String) ≠ "" by decide)
      · exact Or.inl (show ("Error" : String) ≠ "" by decide)
    · exact Or.inl (pyFormat_ne_empty v)
  rw [onClick_default h1 h2 h3 h4 h5]
  rcases eq_or_ne (s.expression ++ opChar label) "" with he | he
  · exact Or.inr he
  · exact Or.inl he

theorem dispInv_applyAll :
    ∀ (seq : List String) (s : CalcState),
      dispInv s → dispInv (applyAll seq s) := by
  intro seq
  induction seq with
  | nil => intro s h; exact h
  | cons l seq ih =>
    intro s h
    exact ih (onClick l s) (dispInv_onClick l s h)

theorem intStr_no_dot (n : ℤ) : '.' ∉ (intStr n).data := by
  unfold intStr
  by_cases h : n < 0
  · rw [if_pos h]
    intro hc
    rw [append_data] at hc
    rcases List.mem_append.mp hc with h1 | h2
    · simp at h1
    · exact natDigits_ne_dot h2 rfl
  · rw [if_neg h]
    intro hc
    exact natDigits_ne_dot hc rfl

theorem onClick_sign_toggle (x d : String) (hx : x ≠ "") (h0 : x ≠ "0") :
    onClick "±" ⟨x, d⟩ =
      (if strIsNeg x then (⟨strTail x, strTail x⟩ : CalcState)
       else ⟨"-" ++ x, "-" ++ x⟩) := by
  rw [onClick_sign]
  split_ifs with hc h1 h2 <;>
    first
      | rfl
      | exact absurd ⟨hx, h0⟩ hc

/-! ## Decimal printing, parsing and the percent round trip -/

theorem kOk_iff_val (q : PyFloat) (k : ℕ) :
    (q.num * 10 ^ k) % (q.den : ℤ) = 0 ↔
    ∃ z : ℤ, q.val * 10 ^ k = (z : ℚ) := by
  have hden0 : q.den ≠ 0 := Nat.pos_iff_ne_zero.mp q.dpos
  have hden : (q.den : ℤ) ≠ 0 := by exact_mod_cast hden0
  have hdenQ : (q.den : ℚ) ≠ 0 := by exact_mod_cast hden0
  have hvmul : q.val * 10 ^ k = ((q.num * 10 ^ k : ℤ) : ℚ) / (q.den : ℚ) := by
    rw [PyFloat.val]
    push_cast
    ring
  constructor
  · intro h
    obtain ⟨z, hz⟩ := Int.dvd_of_emod_eq_zero h
    refine ⟨z, ?_⟩
    rw [hvmul, hz]
    push_cast
    rw [mul_comm]
    field_simp
  · rintro ⟨z, hz⟩
    rw [hvmul] at hz
    have hz2 : ((q.num * 10 ^ k : ℤ) : ℚ) = (z : ℚ) * (q.den : ℚ) := by
      field_simp at hz
      push_cast
      linarith [hz]
    have hz3 : q.num * 10 ^ k = z * (q.den : ℤ) := by exact_mod_cast hz2
    rw [hz3]
    exact Int.mul_emod_left z (q.den : ℤ)


theorem searchK_eq_of_least (q : PyFloat) (k0 : ℕ)
    (hk : (q.num * 10 ^ k0) % (q.den : ℤ) = 0)
    (hmin : ∀ j < k0, (q.num * 10 ^ j) % (q.den : ℤ) ≠ 0) :
    ∀ (fuel k : ℕ), k ≤ k0 → k0 - k < fuel → searchK fuel q k = some k0 := by
  intro fuel
  induction fuel with
  | zero => intro k h1 h2; omega
  | succ f ih =>
    intro k hk1 hk2
    by_cases he : k = k0
    · subst he
      simp [searchK, hk]
    · have hlt : k < k0 := lt_of_le_of_ne hk1 he
      have hne := hmin k hlt
      simp only [searchK, if_neg hne]
      exact ih (k + 1) hlt (by omega)

theorem searchK_finds (q : PyFloat) (m : ℕ) (hden : q.den = 10 ^ m) :
    ∃ k0, searchK (q.den + 1) q 0 = some k0 ∧
      (q.num * 10 ^ k0) % (q.den : ℤ) = 0 ∧
      ∀ j < k0, (q.num * 10 ^ j) % (q.den : ℤ) ≠ 0 := by
  have hex : ∃ k, (q.num * 10 ^ k) % (q.den : ℤ) = 0 := by
    refine ⟨m, ?_⟩
    rw [hden]
    push_cast
    exact Int.mul_emod_left _ _
  have hk := Nat.find_spec hex
  have hmin : ∀ j < Nat.find hex, (q.num * 10 ^ j) % (q.den : ℤ) ≠ 0 :=
    fun j hj => Nat.find_min hex hj
  have hbound : Nat.find hex ≤ m := by
    apply Nat.find_min'
    rw [hden]
    push_cast
    exact Int.mul_emod_left _ _
  have hlt : Nat.find hex < q.den + 1 := by
    have hm : m < 10 ^ m := Nat.lt_pow_self (by norm_num) m
    omega
  exact ⟨Nat.find hex,
    searchK_eq_of_least q (Nat.find hex) hk hmin (q.den + 1) 0
      (Nat.zero_le _) (by omega), hk, hmin⟩


theorem num_neg_iff_val_neg (q : PyFloat) : q.num < 0 ↔ q.val < 0 := by
  rw [PyFloat.val, div_neg_iff]
  have hden : (0 : ℚ) < (q.den : ℚ) := by exact_mod_cast q.dpos
  constructor
  · intro h
    exact Or.inr ⟨by exact_mod_cast h, hden⟩
  · rintro (⟨h1, h2⟩ | ⟨h1, h2⟩)
    · linarith
    · exact_mod_cast h1

theorem scaled_nat (q : PyFloat) (k : ℕ)
    (h : (q.num * 10 ^ k) % (q.den : ℤ) = 0) :
    ∃ z : ℤ, q.val * 10 ^ k = (z : ℚ) ∧
      (q.num * 10 ^ k).natAbs / q.den = z.natAbs := by
  obtain ⟨z, hz⟩ := Int.dvd_of_emod_eq_zero h
  have hden0 : q.den ≠ 0 := Nat.pos_iff_ne_zero.mp q.dpos
  have hdenQ : (q.den : ℚ) ≠ 0 := by exact_mod_cast hden0
  refine ⟨z, ?_, ?_⟩
  · rw [PyFloat.val]
    rw [div_mul_eq_mul_div]
    rw [show ((q.num : ℚ)) * 10 ^ k = ((q.num * 10 ^ k : ℤ) : ℚ) by push_cast; ring]
    rw [hz]
    push_cast
    field_simp
  · rw [hz, Int.natAbs_mul]
    simp only [Int.natAbs_ofNat]
    rw [Nat.mul_div_cancel_left _ q.dpos]

theorem least_k_eq (a b : PyFloat) (hv : a.val = b.val) (ka kb : ℕ)
    (hka : (a.num * 10 ^ ka) % (a.den : ℤ) = 0)
    (hmina : ∀ j < ka, (a.num * 10 ^ j) % (a.den : ℤ) ≠ 0)
    (hkb : (b.num * 10 ^ kb) % (b.den : ℤ) = 0)
    (hminb : ∀ j < kb, (b.num * 10 ^ j) % (b.den : ℤ) ≠ 0) :
    ka = kb := by
  have htrans : ∀ k, (a.num * 10 ^ k) % (a.den : ℤ) = 0 ↔
      (b.num * 10 ^ k) % (b.den : ℤ) = 0 := by
    intro k
    rw [kOk_iff_val, kOk_iff_val, hv]
  rcases lt_trichotomy ka kb with h | h | h
  · exact absurd ((htrans ka).mp hka) (hminb ka h)
  · exact h
  · exact absurd ((htrans kb).mpr hkb) (hmina kb h)

theorem floatStr_val_eq (a b : PyFloat) (ma mb : ℕ)
    (hda : a.den = 10 ^ ma) (hdb : b.den = 10 ^ mb) (hv : a.val = b.val) :
    floatStr a = floatStr b := by
  obtain ⟨ka, hsa, hka, hmina⟩ := searchK_finds a ma hda
  obtain ⟨kb, hsb, hkb, hminb⟩ := searchK_finds b mb hdb
  have hkab : ka = kb := least_k_eq a b hv ka kb hka hmina hkb hminb
  subst hkab
  have hA : floatStr a = (if a.num < 0 then "-" else "") ++
      ⟨pointed ((a.num * 10 ^ ka).natAbs / a.den) ka⟩ := by
    unfold floatStr
    rw [hsa]
  have hB : floatStr b = (if b.num < 0 then "-" else "") ++
      ⟨pointed ((b.num * 10 ^ ka).natAbs / b.den) ka⟩ := by
    unfold floatStr
    rw [hsb]
  obtain ⟨za, hza, hna⟩ := scaled_nat a ka hka
  obtain ⟨zb, hzb, hnb⟩ := scaled_nat b ka hkb
  have hz : za = zb := by
    have : (za : ℚ) = (zb : ℚ) := by rw [← hza, ← hzb, hv]
    exact_mod_cast this
  have hsgn : a.num < 0 ↔ b.num < 0 := by
    rw [num_neg_iff_val_neg, num_neg_iff_val_neg, hv]
  by_cases hsA : a.num < 0
  · rw [hA, hB, if_pos hsA, if_pos (hsgn.mp hsA), hna, hnb, hz]
  · rw [hA, hB, if_neg hsA, if_neg (fun hc => hsA (hsgn.mpr hc)), hna, hnb, hz]


theorem pfIsInt_iff_val (q : PyFloat) :
    pfIsInt q = true ↔ ∃ z : ℤ, q.val = (z : ℚ) := by
  have h0 := kOk_iff_val q 0
  simp only [pow_zero, mul_one] at h0
  unfold pfIsInt
  rw [decide_eq_true_eq]
  exact h0

theorem pfToInt_val (q : PyFloat) {z : ℤ} (hz : q.val = (z : ℚ)) :
    pfToInt q = z := by
  have hden0 : q.den ≠ 0 := Nat.pos_iff_ne_zero.mp q.dpos
  have hdenZ : (q.den : ℤ) ≠ 0 := by exact_mod_cast hden0
  have hdenQ : (q.den : ℚ) ≠ 0 := by exact_mod_cast hden0
  have hnum : q.num = z * (q.den : ℤ) := by
    have h2 : (q.num : ℚ) = (z : ℚ) * (q.den : ℚ) := by
      rw [PyFloat.val] at hz
      field_simp at hz
      exact hz
    exact_mod_cast h2
  unfold pfToInt
  rw [hnum]
  exact Int.mul_ediv_cancel z hdenZ

theorem pyFormatFloat_val_eq (a b : PyFloat) (ma mb : ℕ)
    (hda : a.den = 10 ^ ma) (hdb : b.den = 10 ^ mb) (hv : a.val = b.val) :
    pyFormatFloat a = pyFormatFloat b := by
  have hint : pfIsInt a = pfIsInt b := by
    cases hA : pfIsInt a <;> cases hB : pfIsInt b <;> try rfl
    · exfalso
      obtain ⟨z, hz⟩ := (pfIsInt_iff_val b).mp hB
      have := (pfIsInt_iff_val a).mpr ⟨z, hv ▸ hz⟩
      rw [hA] at this
      exact Bool.false_ne_true this
    · exfalso
      obtain ⟨z, hz⟩ := (pfIsInt_iff_val a).mp hA
      have := (pfIsInt_iff_val b).mpr ⟨z, hv ▸ hz⟩
      rw [hB] at this
      exact Bool.false_ne_true this
  show (if pfIsInt a = true then intStr (pfToInt a) else floatStr a) =
    (if pfIsInt b = true then intStr (pfToInt b) else floatStr b)
  by_cases h : pfIsInt a = true
  · rw [if_pos h, if_pos (hint.symm.trans h)]
    obtain ⟨z, hz⟩ := (pfIsInt_iff_val a).mp h
    rw [pfToInt_val a hz, pfToInt_val b (hv ▸ hz)]
  · rw [if_neg h, if_neg (fun hc => h (hint.trans hc))]
    exact floatStr_val_eq a b ma mb hda hdb hv


theorem takeWhile_dropWhile_append {p : Char → Bool} :
    ∀ (xs : List Char) (y : Char) (ys : List Char),
      (∀ c ∈ xs, p c = true) → p y = false →
      (xs ++ y :: ys).takeWhile p = xs ∧
      (xs ++ y :: ys).dropWhile p = y :: ys := by
  intro xs
  induction xs with
  | nil =>
    intro y ys _ hy
    constructor <;> simp [List.takeWhile, List.dropWhile, hy]
  | cons x xs ih =>
    intro y ys hmem hy
    have hx : p x = true := hmem x (List.mem_cons_self x xs)
    obtain ⟨h1, h2⟩ := ih y ys (fun c hc => hmem c (List.mem_cons_of_mem x hc)) hy
    constructor
    · simp [List.takeWhile_cons, hx, h1]
    · simp [List.dropWhile_cons, hx, h2]

theorem pfOfParts_val (i f L : ℕ) :
    (pfOfParts i f L).val = ((i : ℚ) * 10 ^ L + (f : ℚ)) / 10 ^ L := by
  unfold pfOfParts PyFloat.val
  push_cast
  ring_nf

-- check the two count lemmas exist with these names
example (l1 l2 : List Char) (c : Char) :
    (l1 ++ l2).count c = l1.count c + l2.count c := List.count_append c l1 l2

example (n : ℕ) : (List.replicate n '0').count '0' = n := by simp


theorem isDigit_ne_dot {c : Char} (h : c.isDigit = true) : c ≠ '.' :=
  fun hc => absurd (hc ▸ h) (by decide)

theorem isDigit_ne_plus {c : Char} (h : c.isDigit = true) : c ≠ '+' :=
  fun hc => absurd (hc ▸ h) (by decide)

theorem isDigit_ne_minus {c : Char} (h : c.isDigit = true) : c ≠ '-' :=
  fun hc => absurd (hc ▸ h) (by decide)

theorem floatBlob_pointed (n k : ℕ) :
    ∃ w : PyFloat, floatBlob (pointed n k) = some w ∧
      w.val = (n : ℚ) / 10 ^ k ∧ ∃ mw, w.den = 10 ^ mw := by
  by_cases hk : k = 0
  · subst hk
    have hp : pointed n 0 = natDigits n ++ ['.', '0'] := by
      unfold pointed
      rw [if_pos rfl]
    have hall : (pointed n 0).all (fun c => c.isDigit || c = '.') = true := by
      rw [hp, List.all_eq_true]
      intro c hc
      rcases List.mem_append.mp hc with h | h
      · simp [natDigits_isDigit h]
      · simp only [List.mem_cons, List.mem_singleton] at h
        rcases h with rfl | rfl | h
        · decide
        · decide
        · exact absurd h (List.not_mem_nil c)
    have hcnt : (pointed n 0).count '.' ≤ 1 := by
      rw [hp, List.count_append]
      have h0 : (natDigits n).count '.' = 0 :=
        List.count_eq_zero.mpr (fun hc => natDigits_ne_dot hc rfl)
      rw [h0]
      decide
    have hany : (pointed n 0).any (fun c => c.isDigit) = true := by
      rw [hp, List.any_eq_true]
      obtain ⟨c, hc⟩ := List.exists_mem_of_ne_nil _ (natDigits_ne_nil n)
      exact ⟨c, List.mem_append_left _ hc, natDigits_isDigit hc⟩
    obtain ⟨htake, hdrop⟩ :=
      takeWhile_dropWhile_append (p := fun c => decide (c ≠ '.'))
        (natDigits n) '.' ['0']
        (fun c hc => decide_eq_true (natDigits_ne_dot hc)) (by decide)
    refine ⟨pfOfParts n 0 1, ?_, ?_, 1, rfl⟩
    · unfold floatBlob
      rw [if_pos ⟨hall, hcnt, hany⟩]
      show (match (pointed n 0).dropWhile (fun c => decide (c ≠ '.')) with
        | [] => some (pfOfParts (natVal ((pointed n 0).takeWhile
            (fun c => decide (c ≠ '.')))) 0 0)
        | _ :: f => some (pfOfParts (natVal ((pointed n 0).takeWhile
            (fun c => decide (c ≠ '.')))) (natVal f) f.length)) = _
      rw [hp, htake, hdrop]
      show some (pfOfParts (natVal (natDigits n)) (natVal ['0']) 1) = _
      rw [natVal_natDigits]
      rfl
    · rw [pfOfParts_val]
      push_cast
      rw [pow_zero, pow_one]
      field_simp
  · have hkpos : 0 < k := Nat.pos_of_ne_zero hk
    set ds := natDigits n with hds
    set pad := List.replicate (k + 1 - ds.length) '0' ++ ds with hpad
    set t := pad.length - k with ht
    have hpadlen : k + 1 ≤ pad.length := by
      rw [hpad]
      simp only [List.length_append, List.length_replicate]
      omega
    have hpad_digits : ∀ c ∈ pad, c.isDigit = true := by
      intro c hc
      rcases List.mem_append.mp hc with h | h
      · rw [List.eq_of_mem_replicate h]
        decide
      · exact natDigits_isDigit h
    have hp : pointed n k = pad.take t ++ '.' :: pad.drop t := by
      unfold pointed
      rw [if_neg hk]
    have htlen : (pad.take t).length = t := by
      rw [List.length_take]
      omega
    have hdlen : (pad.drop t).length = k := by
      rw [List.length_drop]
      omega
    have htpos : pad.take t ≠ [] := by
      intro hc
      have := congrArg List.length hc
      rw [htlen] at this
      simp at this
      omega
    have htake_digits : ∀ c ∈ pad.take t, c.isDigit = true :=
      fun c hc => hpad_digits c (List.mem_of_mem_take hc)
    have hdrop_digits : ∀ c ∈ pad.drop t, c.isDigit = true :=
      fun c hc => hpad_digits c (List.mem_of_mem_drop hc)
    have hall : (pointed n k).all (fun c => c.isDigit || c = '.') = true := by
      rw [hp, List.all_eq_true]
      intro c hc
      rcases List.mem_append.mp hc with h | h
      · simp [htake_digits c h]
      · rcases List.mem_cons.mp h with rfl | h2
        · decide
        · simp [hdrop_digits c h2]
    have hcnt : (pointed n k).count '.' ≤ 1 := by
      rw [hp, List.count_append]
      have h1 : (pad.take t).count '.' = 0 :=
        List.count_eq_zero.mpr
          (fun hc => isDigit_ne_dot (htake_digits _ hc) rfl)
      have h2 : (pad.drop t).count '.' = 0 :=
        List.count_eq_zero.mpr
          (fun hc => isDigit_ne_dot (hdrop_digits _ hc) rfl)
      rw [h1, List.count_cons, h2]
      simp
    have hany : (pointed n k).any (fun c => c.isDigit) = true := by
      rw [hp, List.any_eq_true]
      obtain ⟨c, hc⟩ := List.exists_mem_of_ne_nil _ htpos
      exact ⟨c, List.mem_append_left _ hc, htake_digits c hc⟩
    obtain ⟨htake, hdrop⟩ :=
      takeWhile_dropWhile_append (p := fun c => decide (c ≠ '.'))
        (pad.take t) '.' (pad.drop t)
        (fun c hc => decide_eq_true (isDigit_ne_dot (htake_digits c hc)))
        (by decide)
    have hvalpad : natVal pad = n := by
      rw [hpad, natVal_append, natVal_replicate_zero, hds, natVal_natDigits]
      ring
    have hvalsplit :
        natVal (pad.take t) * 10 ^ k + natVal (pad.drop t) = n := by
      have := natVal_append (pad.take t) (pad.drop t)
      rw [List.take_append_drop, hdlen] at this
      rw [← this, hvalpad]
    refine ⟨pfOfParts (natVal (pad.take t)) (natVal (pad.drop t))
      ((pad.drop t).length), ?_, ?_, (pad.drop t).length, rfl⟩
    · unfold floatBlob
      rw [if_pos ⟨hall, hcnt, hany⟩]
      show (match (pointed n k).dropWhile (fun c => decide (c ≠ '.')) with
        | [] => some (pfOfParts (natVal ((pointed n k).takeWhile
            (fun c => decide (c ≠ '.')))) 0 0)
        | _ :: f => some (pfOfParts (natVal ((pointed n k).takeWhile
            (fun c => decide (c ≠ '.')))) (natVal f) f.length)) = _
      rw [hp, htake, hdrop]
    · rw [pfOfParts_val, hdlen]
      have : ((natVal (pad.take t) : ℚ)) * 10 ^ k + (natVal (pad.drop t) : ℚ)
          = (n : ℚ) := by
        exact_mod_cast hvalsplit
      rw [this]


theorem pfNeg_val (w : PyFloat) : (pfNeg w).val = -(w.val) := by
  unfold pfNeg PyFloat.val
  push_cast
  ring

theorem pfDiv100_val (v : PyFloat) : (pfDiv100 v).val = v.val / 100 := by
  unfold pfDiv100 PyFloat.val
  push_cast
  have hden : (v.den : ℚ) ≠ 0 := by
    exact_mod_cast Nat.pos_iff_ne_zero.mp v.dpos
  field_simp

theorem pointed_head_digit (n k : ℕ) :
    ∃ c rest, pointed n k = c :: rest ∧ c.isDigit = true := by
  have key : ∃ X Y, pointed n k = X ++ Y ∧ X ≠ [] ∧
      ∀ c ∈ X, c.isDigit = true := by
    by_cases hk : k = 0
    · subst hk
      refine ⟨natDigits n, ['.', '0'], ?_, natDigits_ne_nil n,
        fun c hc => natDigits_isDigit hc⟩
      unfold pointed
      rw [if_pos rfl]
    · set ds := natDigits n with hds
      set pad := List.replicate (k + 1 - ds.length) '0' ++ ds with hpad
      set t := pad.length - k with ht
      have hpadlen : k + 1 ≤ pad.length := by
        rw [hpad]
        simp only [List.length_append, List.length_replicate]
        omega
      have hpad_digits : ∀ c ∈ pad, c.isDigit = true := by
        intro c hc
        rcases List.mem_append.mp hc with h | h
        · rw [List.eq_of_mem_replicate h]
          decide
        · exact natDigits_isDigit h
      have htlen : (pad.take t).length = t := by
        rw [List.length_take]
        omega
      refine ⟨pad.take t, '.' :: pad.drop t, ?_, ?_,
        fun c hc => hpad_digits c (List.mem_of_mem_take hc)⟩
      · unfold pointed
        rw [if_neg hk]
      · intro hc
        have := congrArg List.length hc
        rw [htlen] at this
        simp at this
        omega
  obtain ⟨X, Y, hXY, hX, hdig⟩ := key
  cases X with
  | nil => exact absurd rfl hX
  | cons c cs =>
    exact ⟨c, cs ++ Y, by rw [hXY]; rfl,
      hdig c (List.mem_cons_self c cs)⟩

theorem floatBlob_den (cs : List Char) (w : PyFloat)
    (h : floatBlob cs = some w) : ∃ m, w.den = 10 ^ m := by
  unfold floatBlob at h
  split_ifs at h
  split at h
  · exact ⟨0, by rw [← Option.some_inj.mp h]; rfl⟩
  · exact ⟨_, by rw [← Option.some_inj.mp h]; rfl⟩

theorem pyFloat_den_pow10 (s : String) (v : PyFloat)
    (h : pyFloat s = some v) : ∃ m, v.den = 10 ^ m := by
  unfold pyFloat at h
  split at h
  · exact floatBlob_den _ _ h
  · rcases hb : floatBlob _ with _ | w
    · rw [hb] at h
      exact Option.noConfusion h
    · rw [hb] at h
      have h2 : pfNeg w = v := Option.some_inj.mp h
      obtain ⟨m, hm⟩ := floatBlob_den _ _ hb
      exact ⟨m, by rw [← h2]; exact hm⟩
  · exact floatBlob_den _ _ h


theorem pyFloat_eq_blob (c : Char) (rest : List Char)
    (h1 : c ≠ '+') (h2 : c ≠ '-') :
    pyFloat ⟨c :: rest⟩ = floatBlob (c :: rest) := by
  unfold pyFloat
  split
  · next r heq =>
    exfalso
    have : c = '+' := (List.cons.injEq _ _ _ _ ▸ heq).1
    exact h1 this
  · next r heq =>
    exfalso
    have : c = '-' := (List.cons.injEq _ _ _ _ ▸ heq).1
    exact h2 this
  · next heq h3 h4 => rfl


theorem pyFloat_floatStr (q : PyFloat) (m : ℕ) (hden : q.den = 10 ^ m) :
    ∃ w, pyFloat (floatStr q) = some w ∧ w.val = q.val ∧
      ∃ mw, w.den = 10 ^ mw := by
  obtain ⟨k0, hs, hk, hmin⟩ := searchK_finds q m hden
  obtain ⟨z, hzval, hzn⟩ := scaled_nat q k0 hk
  have hfs : floatStr q = (if q.num < 0 then "-" else "") ++
      ⟨pointed ((q.num * 10 ^ k0).natAbs / q.den) k0⟩ := by
    unfold floatStr
    rw [hs]
  rw [hzn] at hfs
  obtain ⟨w0, hblob, hw0val, mw, hw0den⟩ := floatBlob_pointed z.natAbs k0
  obtain ⟨c, rest, hcr, hcdig⟩ := pointed_head_digit z.natAbs k0
  have hq10 : (10 : ℚ) ^ k0 ≠ 0 := by positivity
  have hqval : q.val = (z : ℚ) / 10 ^ k0 := by
    field_simp
    exact hzval
  by_cases hneg : q.num < 0
  · rw [hfs, if_pos hneg]
    have hdata : ("-" ++ (⟨pointed z.natAbs k0⟩ : String)).data =
        '-' :: pointed z.natAbs k0 := by
      rw [append_data]
      rfl
    have hpf : pyFloat ("-" ++ (⟨pointed z.natAbs k0⟩ : String)) =
        (floatBlob (pointed z.natAbs k0)).map pfNeg := by
      unfold pyFloat
      rw [hdata]
      rfl
    rw [hpf, hblob]
    refine ⟨pfNeg w0, rfl, ?_, mw, hw0den⟩
    have hzneg : z < 0 := by
      have hvneg : q.val < 0 := (num_neg_iff_val_neg q).mp hneg
      by_contra hzp
      push_neg at hzp
      have : (0 : ℚ) ≤ (z : ℚ) / 10 ^ k0 := by positivity
      rw [← hqval] at this
      linarith
    have habs : ((z.natAbs : ℚ)) = -(z : ℚ) := by
      rw [Int.cast_natAbs, abs_of_neg hzneg]
      push_cast
      ring
    rw [pfNeg_val, hw0val, habs, hqval]
    ring
  · rw [hfs, if_neg hneg]
    rw [str_empty_append]
    rw [show (⟨pointed z.natAbs k0⟩ : String) = ⟨c :: rest⟩ from
      congrArg String.mk hcr]
    rw [pyFloat_eq_blob c rest (isDigit_ne_plus hcdig)
      (isDigit_ne_minus hcdig)]
    rw [← hcr, hblob]
    refine ⟨w0, rfl, ?_, mw, hw0den⟩
    have hzpos : 0 ≤ z := by
      have hvpos : 0 ≤ q.val := by
        by_contra hvn
        push_neg at hvn
        exact hneg ((num_neg_iff_val_neg q).mpr hvn)
      by_contra hzn2
      push_neg at hzn2
      have hlt : (z : ℚ) / 10 ^ k0 < 0 := by
        apply div_neg_of_neg_of_pos
        · exact_mod_cast hzn2
        · positivity
      rw [← hqval] at hlt
      linarith
    have habs : ((z.natAbs : ℚ)) = (z : ℚ) := by
      rw [Int.cast_natAbs, abs_of_nonneg hzpos]
    rw [hw0val, habs, hqval]

/-! ## The claims -/

/-- C1: Equals on the buffer `"2+3"` sets the display to `"5"` and the
buffer to `"5"`; in general, on a successfully evaluated buffer, Equals
sets the display to the formatted result and the buffer to the result's
string form, so Equals on the literal buffer `"5"` again yields display
`"5"` and buffer `"5"` (idempotent once reduced to a literal). -/
theorem claim_C1_equals_success :
    (∀ (s : CalcState) (r : PyVal), pyEval s.expression = .ok r →
        onClick "=" s = ⟨strVal r, pyFormat r⟩) ∧
    onClick "=" ⟨"2+3", "2+3"⟩ = ⟨"5", "5"⟩ ∧
    onClick "=" ⟨"5", "5"⟩ = ⟨"5", "5"⟩ := by
  refine ⟨fun s r h => ?_, by decide, by decide⟩
  rw [onClick_equals, h]

theorem claim_C1_equals_success_witness :
    pyEval "2+3" = .ok (.int 5) ∧
    onClick "=" ⟨"2+3", "2+3"⟩ = ⟨strVal (.int 5), pyFormat (.int 5)⟩ :=
  ⟨by decide, claim_C1_equals_success.1 ⟨"2+3", "2+3"⟩ (.int 5) (by decide)⟩

/-- C2: a buffer whose evaluation divides by zero makes Equals show the
distinct `"÷0 Error"` indicator and clears the buffer; any malformed
buffer (empty, trailing operator, invalid syntax) makes Equals show the
generic `"Error"` indicator and clears the buffer.  `"5/0"`, `""` and
`"3+"` are concrete instances of the two classes. -/
theorem claim_C2_equals_error_taxonomy :
    (∀ s : CalcState, pyEval s.expression = .error .zeroDiv →
        onClick "=" s = ⟨"", "÷0 Error"⟩) ∧
    (∀ s : CalcState, pyEval s.expression = .error .badExpr →
        onClick "=" s = ⟨"", "Error"⟩) ∧
    pyEval "5/0" = .error .zeroDiv ∧
    pyEval "" = .error .badExpr ∧
    pyEval "3+" = .error .badExpr ∧
    onClick "=" ⟨"5/0", "5/0"⟩ = ⟨"", "÷0 Error"⟩ ∧
    onClick "=" ⟨"", "0"⟩ = ⟨"", "Error"⟩ ∧
    onClick "=" ⟨"3+", "3+"⟩ = ⟨"", "Error"⟩ := by
  refine ⟨fun s h => ?_, fun s h => ?_, by decide, by decide, by decide,
    by decide, by decide, by decide⟩
  · rw [onClick_equals, h]
  · rw [onClick_equals, h]

theorem claim_C2_equals_error_taxonomy_witness :
    pyEval "5/0" = .error .zeroDiv ∧
    onClick "=" ⟨"5/0", "d"⟩ = ⟨"", "÷0 Error"⟩ ∧
    onClick "=" ⟨"3+", "d"⟩ = ⟨"", "Error"⟩ :=
  ⟨by decide,
   claim_C2_equals_error_taxonomy.1 ⟨"5/0", "d"⟩ (by decide),
   claim_C2_equals_error_taxonomy.2.1 ⟨"3+", "d"⟩ (by decide)⟩

/-- C3: if the buffer parses as a float, Percent replaces the buffer
with the decimal string of the value divided by 100 and sets the display
to the formatted value; on `"50"` this gives buffer `"0.5"` and display
`"0.5"`.  If the buffer does not parse as a float (e.g. `"3+"`), Percent
shows the generic `"Error"` indicator and clears the buffer. -/
theorem claim_C3_percent :
    (∀ (s : CalcState) (v : PyFloat), pyFloat s.expression = some v →
      onClick "%" s = ⟨floatStr (pfDiv100 v), pyFormatFloat (pfDiv100 v)⟩) ∧
    (∀ s : CalcState, pyFloat s.expression = none →
      onClick "%" s = ⟨"", "Error"⟩) ∧
    onClick "%" ⟨"50", "50"⟩ = ⟨"0.5", "0.5"⟩ ∧
    onClick "%" ⟨"3+", "3+"⟩ = ⟨"", "Error"⟩ := by
  refine ⟨fun s v hv => ?_, fun s hv => by rw [onClick_percent, hv],
    by decide, by decide⟩
  rw [onClick_percent, hv]
  obtain ⟨m, hm⟩ := pyFloat_den_pow10 s.expression v hv
  have hden2 : (pfDiv100 v).den = 10 ^ (m + 2) := by
    show v.den * 100 = 10 ^ (m + 2)
    rw [hm]
    ring
  obtain ⟨w, hw, hwval, mw, hwden⟩ := pyFloat_floatStr (pfDiv100 v) (m + 2) hden2
  show (match pyFloat (floatStr (pfDiv100 v)) with
    | none => (⟨"", "Error"⟩ : CalcState)
    | some v2 => ⟨floatStr (pfDiv100 v), pyFormatFloat v2⟩) = _
  rw [hw]
  show (⟨floatStr (pfDiv100 v), pyFormatFloat w⟩ : CalcState) = _
  rw [pyFormatFloat_val_eq w (pfDiv100 v) mw (m + 2) hwden hden2 hwval]

theorem claim_C3_percent_witness :
    pyFloat "50" = some (pfOfParts 50 0 0) ∧
    onClick "%" ⟨"50", "d"⟩ =
      ⟨floatStr (pfDiv100 (pfOfParts 50 0 0)),
       pyFormatFloat (pfDiv100 (pfOfParts 50 0 0))⟩ ∧
    onClick "%" ⟨"3+", "d"⟩ = ⟨"", "Error"⟩ :=
  ⟨by decide,
   claim_C3_percent.1 ⟨"50", "d"⟩ (pfOfParts 50 0 0) (by decide),
   claim_C3_percent.2.1 ⟨"3+", "d"⟩ (by decide)⟩

/-- C4 counterexample: the claimed involution fails on the reachable
buffer `"-"` (press `−`, then `±` twice): the first SignToggle strips
the minus sign, leaving buffer and display empty, and the second is a
no-op, so the state does not return to `⟨"-", "-"⟩`. -/
theorem claim_C4_counterexample :
    onClick "±" (onClick "±" ⟨"-", "-"⟩) ≠ ⟨"-", "-"⟩ := by decide

/-- C4 (amended): applying SignToggle twice returns a non-empty buffer
other than `"0"` (and the display, which then mirrors it) to its
original value, provided that when the buffer starts with `"-"` the part
after the sign is non-empty, not `"0"`, and does not itself start with
`"-"`; SignToggle is a no-op when the buffer is empty or exactly `"0"`. -/
theorem claim_C4_sign_toggle_involution :
    (∀ x d : String, x ≠ "" → x ≠ "0" →
      (strIsNeg x = true →
        strTail x ≠ "" ∧ strTail x ≠ "0" ∧ strIsNeg (strTail x) = false) →
      onClick "±" (onClick "±" ⟨x, d⟩) = ⟨x, x⟩) ∧
    (∀ d : String, onClick "±" ⟨"", d⟩ = ⟨"", d⟩) ∧
    (∀ d : String, onClick "±" ⟨"0", d⟩ = ⟨"0", d⟩) := by
  refine ⟨fun x d hx h0 hneg => ?_, fun d => rfl, fun d => rfl⟩
  by_cases hn : strIsNeg x = true
  · obtain ⟨ht1, ht2, ht3⟩ := hneg hn
    rw [onClick_sign_toggle x d hx h0, if_pos hn,
      onClick_sign_toggle (strTail x) (strTail x) ht1 ht2,
      if_neg (show ¬ strIsNeg (strTail x) = true by
        rw [ht3]; exact Bool.false_ne_true),
      minus_append_strTail hn]
  · rw [onClick_sign_toggle x d hx h0, if_neg hn,
      onClick_sign_toggle ("-" ++ x) ("-" ++ x)
        (minus_append_ne_empty x) (minus_append_ne_zero x),
      if_pos (strIsNeg_minus_append x), strTail_minus_append]

theorem claim_C4_sign_toggle_involution_witness :
    ("5" : String) ≠ "" ∧
    onClick "±" (onClick "±" ⟨"5", "5"⟩) = ⟨"5", "5"⟩ :=
  ⟨by decide,
   claim_C4_sign_toggle_involution.1 "5" "5" (by decide) (by decide)
     (by decide)⟩

/-- C5: the handler never propagates an exception: the embedding
`onClick` is a total function, and every failure inside Percent or
Equals is translated into an error display string with the buffer reset
to empty (`"Error"` for a percent parse failure, `"÷0 Error"` or
`"Error"` for an equals evaluation failure). -/
theorem claim_C5_no_exception_escape :
    (∀ s : CalcState, pyFloat s.expression = none →
        onClick "%" s = ⟨"", "Error"⟩) ∧
    (∀ (s : CalcState) (e : EvalErr), pyEval s.expression = .error e →
        (onClick "=" s).expression = "" ∧
        ((onClick "=" s).display = "÷0 Error" ∨
         (onClick "=" s).display = "Error")) := by
  constructor
  · intro s h
    rw [onClick_percent, h]
  · intro s e h
    rw [onClick_equals, h]
    rcases e
    · exact ⟨rfl, Or.inl rfl⟩
    · exact ⟨rfl, Or.inr rfl⟩
    · exact ⟨rfl, Or.inr rfl⟩

theorem claim_C5_no_exception_escape_witness :
    pyFloat "3+" = none ∧ onClick "%" ⟨"3+", "d"⟩ = ⟨"", "Error"⟩ ∧
    (onClick "=" ⟨"3+", "d"⟩).expression = "" :=
  ⟨by decide, claim_C5_no_exception_escape.1 ⟨"3+", "d"⟩ (by decide),
   (claim_C5_no_exception_escape.2 ⟨"3+", "d"⟩ .badExpr (by decide)).1⟩

/-- C6 counterexample: the claim quantifies over every sequence of digit
presses, but after the empty sequence the display is the initial `"0"`
while the buffer is `""`, so the display does not equal the buffer. -/
theorem claim_C6_counterexample :
    ¬ ((applyAll [] initState).expression = String.join [] ∧
       (applyAll [] initState).display = (applyAll [] initState).expression) := by
  decide

/-- C6 (amended): for every sequence of digit presses from the empty
buffer the buffer becomes the concatenation of the pressed digits, and
for every non-empty such sequence the display equals the buffer (after
the empty sequence the display stays `"0"`); in the same default branch
the operator labels `"÷"`, `"×"`, `"−"` append `"/"`, `"*"`, `"-"` and
digits and `"."` append unchanged. -/
theorem claim_C6_digit_append_mirror :
    (∀ seq : List String, (∀ l ∈ seq, l ∈ digitLabels) →
      (applyAll seq initState).expression = String.join seq ∧
      (seq ≠ [] →
        (applyAll seq initState).display =
          (applyAll seq initState).expression)) ∧
    (∀ s : CalcState,
      onClick "÷" s = ⟨s.expression ++ "/", s.expression ++ "/"⟩) ∧
    (∀ s : CalcState,
      onClick "×" s = ⟨s.expression ++ "*", s.expression ++ "*"⟩) ∧
    (∀ s : CalcState,
      onClick "−" s = ⟨s.expression ++ "-", s.expression ++ "-"⟩) ∧
    (∀ s : CalcState,
      onClick "." s = ⟨s.expression ++ ".", s.expression ++ "."⟩) ∧
    (∀ (l : String) (s : CalcState), l ∈ digitLabels →
      onClick l s = ⟨s.expression ++ l, s.expression ++ l⟩) := by
  refine ⟨fun seq hseq => ?_, fun s => rfl, fun s => rfl, fun s => rfl,
    fun s => rfl, fun l s hl => onClick_digit_append hl s⟩
  obtain ⟨hexp, hdisp⟩ := applyAll_digits seq initState hseq
  constructor
  · rw [hexp]
    exact str_empty_append (String.join seq)
  · intro hne
    rcases hdisp with hnil | hd
    · exact absurd hnil hne
    · exact hd

theorem claim_C6_digit_append_mirror_witness :
    (applyAll ["1", "2", "3"] initState).expression =
      String.join ["1", "2", "3"] ∧
    (applyAll ["1", "2", "3"] initState).display =
      (applyAll ["1", "2", "3"] initState).expression :=
  ⟨(claim_C6_digit_append_mirror.1 ["1", "2", "3"] (by decide)).1,
   (claim_C6_digit_append_mirror.1 ["1", "2", "3"] (by decide)).2
     (by decide)⟩

/-- C7: Backspace drops the last character of the buffer and shows the
new buffer, or `"0"` if it became empty; on an empty buffer it is a
no-op on the buffer with display `"0"`, idempotently, and (being a total
function in the embedding) it never errors. -/
theorem claim_C7_backspace :
    (∀ s : CalcState, onClick "⌫" s =
      ⟨strDropLast s.expression,
       if strDropLast s.expression = "" then "0"
       else strDropLast s.expression⟩) ∧
    (∀ (x : String) (c : Char) (d : String),
      onClick "⌫" ⟨x.push c, d⟩ = ⟨x, if x = "" then "0" else x⟩) ∧
    (∀ d : String, onClick "⌫" ⟨"", d⟩ = ⟨"", "0"⟩) ∧
    (∀ d : String, onClick "⌫" (onClick "⌫" ⟨"", d⟩) = ⟨"", "0"⟩) := by
  refine ⟨onClick_backspace, fun x c d => ?_, fun d => rfl, fun d => rfl⟩
  rw [onClick_backspace]
  show (⟨strDropLast (x.push c),
    if strDropLast (x.push c) = "" then "0"
    else strDropLast (x.push c)⟩ : CalcState) = _
  rw [strDropLast_push]

theorem claim_C7_backspace_witness :
    onClick "⌫" ⟨"12", "12"⟩ = ⟨"1", "1"⟩ ∧
    onClick "⌫" ⟨"", "0"⟩ = ⟨"", "0"⟩ :=
  ⟨by rw [claim_C7_backspace.1 ⟨"12", "12"⟩]; decide,
   claim_C7_backspace.2.2.1 "0"⟩

/-- C8: `_format` renders a whole-number value without a decimal point
(through `str(int(value))` for an integral float, and as a plain integer
string for an `int`), and renders every other numeric value in its
default decimal string form `str(value)`; in particular
`_format(4.0) = "4"` and `_format(4.5) = "4.5"`. -/
theorem claim_C8_format_number :
    pyFormat (.float (pfOfParts 4 0 1)) = "4" ∧
    pyFormat (.float (pfOfParts 4 5 1)) = "4.5" ∧
    (∀ f : PyFloat, pfIsInt f = true →
      pyFormat (.float f) = intStr (pfToInt f) ∧
      '.' ∉ (pyFormat (.float f)).data) ∧
    (∀ f : PyFloat, pfIsInt f = false → pyFormat (.float f) = floatStr f) ∧
    (∀ n : ℤ, pyFormat (.int n) = intStr n ∧
      '.' ∉ (pyFormat (.int n)).data) := by
  refine ⟨by decide, by decide, fun f h => ?_, fun f h => ?_,
    fun n => ⟨rfl, intStr_no_dot n⟩⟩
  · constructor
    · show (if pfIsInt f = true then intStr (pfToInt f) else floatStr f) = _
      rw [if_pos h]
    · show '.' ∉ ((if pfIsInt f = true then intStr (pfToInt f)
        else floatStr f)).data
      rw [if_pos h]
      exact intStr_no_dot _
  · show (if pfIsInt f = true then intStr (pfToInt f) else floatStr f) = _
    rw [if_neg (by rw [h]; exact Bool.false_ne_true)]

theorem claim_C8_format_number_witness :
    pfIsInt (pfOfParts 4 0 1) = true ∧
    pyFormat (.float (pfOfParts 4 0 1)) = intStr (pfToInt (pfOfParts 4 0 1)) ∧
    pfIsInt (pfOfParts 4 5 1) = false ∧
    pyFormat (.float (pfOfParts 4 5 1)) = floatStr (pfOfParts 4 5 1) :=
  ⟨by decide, (claim_C8_format_number.2.2.1 (pfOfParts 4 0 1) (by decide)).1,
   by decide, claim_C8_format_number.2.2.2.1 (pfOfParts 4 5 1) (by decide)⟩

/-- C9 counterexample: the display is not always non-empty: pressing
`−` then `±` from the initial state leaves the display equal to the
empty string (SignToggle on the buffer `"-"` strips the sign and shows
the now-empty buffer). -/
theorem claim_C9_counterexample :
    (applyAll ["−", "±"] initState).display = "" := by decide

/-- C9 (amended): starting from the initial state, after every sequence
of button presses the display is non-empty except in states where the
buffer is empty as well; the only way to reach an empty display is the
SignToggle of a lone `"-"`, which empties both fields. -/
theorem claim_C9_display_invariant :
    ∀ seq : List String,
      (applyAll seq initState).display ≠ "" ∨
      (applyAll seq initState).expression = "" :=
  fun seq => dispInv_applyAll seq initState (Or.inl (by decide))

theorem claim_C9_display_invariant_witness :
    (applyAll ["1"] initState).display ≠ "" ∨
    (applyAll ["1"] initState).expression = "" :=
  claim_C9_display_invariant ["1"]

/-- C10: after a successful Percent or Equals whose numeric result is a
whole-number float the display and the buffer differ: Percent on
`"400"` gives buffer `"4.0"` and display `"4"`, Equals on `"6/2"` gives
buffer `"3.0"` and display `"3"`. -/
theorem claim_C10_display_buffer_divergence :
    onClick "%" ⟨"400", "400"⟩ = ⟨"4.0", "4"⟩ ∧
    onClick "=" ⟨"6/2", "6/2"⟩ = ⟨"3.0", "3"⟩ ∧
    (onClick "%" ⟨"400", "400"⟩).display ≠
      (onClick "%" ⟨"400", "400"⟩).expression ∧
    (onClick "=" ⟨"6/2", "6/2"⟩).display ≠
      (onClick "=" ⟨"6/2", "6/2"⟩).expression := by decide

end CalcApp
